import Mathlib

/-!
Verification development for the behavioral instruction compiler
(src/behavioral_compiler.py).  The Python source is shallowly embedded:
the fixed regex pattern tables are embedded via a small regex interpreter
covering exactly the constructs those patterns use (literal characters,
alternation, an optional single character, and the word-boundary assertion),
matching case-insensitively like re.IGNORECASE; the splitter, component
extraction, classifier, dependency-graph builder, Kahn-style topological
sorter and directive generator are translated function by function.
-/

namespace LLMBios

/-- Word characters in the sense of the regex metacharacter for word
boundaries, for ASCII text (letters, digits, underscore). -/
def isWordChar (c : Char) : Bool := c.isAlphanum || c == '_'

/-- Whitespace characters recognized by Python, ASCII range
(space, tab, newline, carriage return, vertical tab, form feed). -/
def isPySpace (c : Char) : Bool :=
  c == ' ' || c == '\t' || c == '\n' || c == '\r' || c == '\x0b' || c == '\x0c'

/-- Uppercase a string character by character; models Python str.upper on
ASCII input (Lean String.toUpper computes the same map but does not reduce
in the kernel). -/
def pyUpper (s : String) : String := ⟨s.data.map Char.toUpper⟩

/-- Regex abstract syntax covering the constructs used by the fixed pattern
tables of the source: empty pattern, a single literal character, the
word-boundary assertion, concatenation, alternation, and an optional
subpattern (the question-mark postfix). -/
inductive Regex where
  | emp : Regex
  | char : Char → Regex
  | wordB : Regex
  | seq : Regex → Regex → Regex
  | alt : Regex → Regex → Regex
  | opt : Regex → Regex
deriving DecidableEq

/-- Case-insensitive single-character match (re.IGNORECASE). -/
def charMatches (p t : Char) : Bool := p.toLower == t.toLower

/-- Is the character at position i of s a word character (false past the end). -/
def isWordAt (s : List Char) (i : Nat) : Bool :=
  match s[i]? with
  | some c => isWordChar c
  | none => false

/-- Word boundary at position i of s: exactly one of the adjacent positions
holds a word character. -/
def wordBoundaryAt (s : List Char) (i : Nat) : Bool :=
  (decide (0 < i) && isWordAt s (i - 1)) != isWordAt s i

/-- Backtracking matcher in continuation style: does r match some span of s
beginning at position i such that the continuation accepts the end position. -/
def Regex.matchFrom : Regex → List Char → Nat → (Nat → Bool) → Bool
  | .emp, _, i, k => k i
  | .char c, s, i, k =>
    match s[i]? with
    | some t => charMatches c t && k (i + 1)
    | none => false
  | .wordB, s, i, k => wordBoundaryAt s i && k i
  | .seq r1 r2, s, i, k => r1.matchFrom s i (fun j => r2.matchFrom s j k)
  | .alt r1 r2, s, i, k => r1.matchFrom s i k || r2.matchFrom s i k
  | .opt r, s, i, k => r.matchFrom s i k || k i

/-- Does r match anywhere in the text (the behavior of re.search used as a
boolean test). -/
def Regex.search (r : Regex) (text : String) : Bool :=
  (List.range (text.data.length + 1)).any (fun i => r.matchFrom text.data i (fun _ => true))

/-- Literal character sequence as a regex. -/
def Regex.strR : List Char → Regex
  | [] => .emp
  | c :: cs => .seq (.char c) (Regex.strR cs)

/-- Literal string as a regex. -/
def Regex.lit (s : String) : Regex := Regex.strR s.data

/-- Alternation of a nonempty list of regexes, associated to the right. -/
def Regex.altList : List Regex → Regex
  | [] => .emp
  | [r] => r
  | r :: rs => .alt r (Regex.altList rs)

/-- A word-boundary-delimited alternation group of literal words. -/
def grpB (ws : List String) : Regex :=
  .seq .wordB (.seq (Regex.altList (ws.map Regex.lit)) .wordB)

/-- A group of alternatives delimited on both sides by the two-character
literal backslash-b (the action patterns are raw strings with doubled
backslashes, so their delimiters are literal text, not word boundaries). -/
def grpBS (alts : List Regex) : Regex :=
  .seq (Regex.lit "\\b") (.seq (Regex.altList alts) (Regex.lit "\\b"))

/-- A single word delimited by word boundaries on both sides. -/
def wbWord (w : String) : Regex := .seq .wordB (.seq (Regex.lit w) .wordB)

/-- TRIGGER_PATTERNS table of the source, in declaration order. -/
def TRIGGER_PATTERNS : List (Regex × String) := [
  (grpB ["at start", "conversation start", "initially", "first"], "conversation_start"),
  (grpB ["before responding", "before output", "before returning"], "pre_response"),
  (grpB ["after", "once", "when complete"], "post_action"),
  (grpB ["always", "every time", "for each message"], "every_message"),
  (grpB ["on user message", "when user", "if user asks"], "on_user_message"),
  (grpB ["on success", "if succeeds", "after successful"], "on_success"),
  (grpB ["on failure", "if fails"], "on_failure"),
  (grpB ["if no match", "when not found", "if missing"], "on_miss"),
  (grpB ["if found", "when matched", "if exists"], "on_match")]

/-- ACTION_PATTERNS table of the source, in declaration order.  Each pattern
in the source is a raw string whose delimiters are written with a doubled
backslash, so they denote the literal two-character text backslash-b. -/
def ACTION_PATTERNS : List (Regex × String) := [
  (grpBS [Regex.lit "load", Regex.lit "fetch", Regex.lit "retrieve", Regex.lit "get", Regex.lit "read"], "retrieve"),
  (grpBS [Regex.lit "search", Regex.lit "query", Regex.lit "find", Regex.lit "look up", Regex.lit "check"], "search"),
  (grpBS [Regex.lit "store", Regex.lit "save", Regex.lit "persist", Regex.lit "write", Regex.lit "remember"], "store"),
  (grpBS [Regex.lit "create", Regex.lit "make", Regex.lit "add", Regex.lit "new"], "create"),
  (grpBS [Regex.lit "match", Regex.lit "compare", Regex.lit "check against", Regex.lit "map to"], "match"),
  (grpBS [Regex.lit "discover", Regex.lit "figure out", .seq (Regex.lit "get ou") (.opt (.char 't')), Regex.lit "determine"], "discover"),
  (grpBS [Regex.lit "use tools", Regex.lit "call", Regex.lit "invoke", Regex.lit "execute"], "tool_call"),
  (grpBS [Regex.lit "convert", Regex.lit "transform", Regex.lit "format", Regex.lit "apply"], "transform")]

/-- CONDITION_PATTERNS table of the source, in declaration order; alternation
binds loosest, so boundary assertions attach per alternative exactly as
written in the source patterns. -/
def CONDITION_PATTERNS : List (Regex × String) := [
  (.alt (wbWord "if exists") (wbWord "when present"), "existence_positive"),
  (Regex.altList [wbWord "if not", wbWord "if no", wbWord "if missing", wbWord "when absent"], "existence_negative"),
  (.alt (.seq .wordB (.seq (Regex.lit "if matche") (.seq (.opt (.char 's')) .wordB)))
        (.seq (Regex.lit "equal") (.opt (.char 's'))), "equality"),
  (Regex.altList [.seq .wordB (.seq (Regex.lit "contain") (.opt (.char 's'))),
                  .seq (Regex.lit "include") (.opt (.char 's')),
                  .seq (Regex.lit "has") .wordB], "containment")]

/-- OBJECT_PATTERNS table of the source, in declaration order. -/
def OBJECT_PATTERNS : List (Regex × String) := [
  (Regex.altList [.seq .wordB (Regex.lit "domain"), Regex.lit "topic", .seq (Regex.lit "namespace") .wordB], "domain"),
  (Regex.altList [.seq .wordB (Regex.lit "route"), Regex.lit "path", .seq (Regex.lit "paths") .wordB], "route"),
  (Regex.altList [.seq .wordB (Regex.lit "memory"), Regex.lit "stored", .seq (Regex.lit "saved") .wordB], "memory"),
  (.alt (.seq .wordB (Regex.lit "preference")) (.seq (Regex.lit "setting") (.seq (.opt (.char 's')) .wordB)), "preference"),
  (.alt (.seq .wordB (Regex.lit "keyword")) (.seq (Regex.lit "trigger word") .wordB), "keyword"),
  (Regex.altList [.seq .wordB (Regex.lit "result"), Regex.lit "answer", Regex.lit "response", .seq (Regex.lit "output") .wordB], "result")]

/-- Return the label of the earliest pattern in the table that matches the
text, or the empty string when none does. -/
def find_first_match : List (Regex × String) → String → String
  | [], _ => ""
  | (pat, typ) :: rest, text =>
    if pat.search text then typ else find_first_match rest text

/-- The four extracted component fields of one instruction fragment. -/
structure Components where
  trigger : String
  action : String
  condition : String
  object : String
deriving DecidableEq

/-- Dictionary lookup with default over the component bundle; the bundle
built by extract_components always carries all four keys, so the default is
only returned for a key other than the four. -/
def Components.get (comp : Components) (key dflt : String) : String :=
  if key = "trigger" then comp.trigger
  else if key = "action" then comp.action
  else if key = "condition" then comp.condition
  else if key = "object" then comp.object
  else dflt

/-- Extract the four components of a fragment; the trigger defaults to
every_message when no trigger pattern matched. -/
def extract_components (instruction : String) : Components :=
  let t := find_first_match TRIGGER_PATTERNS instruction
  { trigger := if t = "" then "every_message" else t,
    action := find_first_match ACTION_PATTERNS instruction,
    condition := find_first_match CONDITION_PATTERNS instruction,
    object := find_first_match OBJECT_PATTERNS instruction }

/-- The ordered classifier rule cascade of the source. -/
def classify_instruction (comp : Components) : String :=
  if comp.action ∈ (["retrieve", "search", "load", "get"] : List String) ∧ comp.object = "memory" then "LOOKUP"
  else if comp.action = "match" ∨ (comp.action ∈ (["compare", "map"] : List String) ∧ comp.object ∈ (["domain", "route"] : List String)) then "MATCH"
  else if comp.action ∈ (["discover", "tool_call"] : List String) then "DISCOVER"
  else if comp.action ∈ (["store", "create"] : List String) then "STORE"
  else if comp.action = "transform" then "APPLY"
  else if comp.condition ≠ "" then "GATE"
  else if comp.trigger = "conversation_start" then "LOOKUP"
  else if comp.trigger = "on_miss" then "DISCOVER"
  else if comp.trigger = "on_success" then "STORE"
  else if comp.trigger = "pre_response" then "APPLY"
  else "UNKNOWN"

/-- Split raw text at every semicolon, comma or period.  The split regex of
the source also consumes the whitespace run following the delimiter; that
whitespace becomes a prefix of the next piece here and is removed by the
strip applied to every piece below, so split_compound is unchanged. -/
def splitDelims : List Char → List Char → List (List Char)
  | [], acc => [acc.reverse]
  | c :: rest, acc =>
    if c == ';' || c == ',' || c == '.' then
      acc.reverse :: splitDelims rest []
    else splitDelims rest (c :: acc)

/-- Strip leading and trailing whitespace (Python str.strip). -/
def pyStrip (s : List Char) : List Char :=
  ((s.dropWhile isPySpace).reverse.dropWhile isPySpace).reverse

/-- Split a compound text into trimmed nonempty fragments. -/
def split_compound (text : String) : List String :=
  ((splitDelims text.data []).map pyStrip).filterMap
    (fun p => if p.isEmpty then none else some (String.mk p))

/-- TYPE_DEPENDENCIES table of the source. -/
def TYPE_DEPENDENCIES : List (String × List String) := [
  ("LOOKUP", []), ("MATCH", ["LOOKUP"]), ("DISCOVER", ["MATCH"]),
  ("STORE", ["DISCOVER"]), ("APPLY", ["MATCH", "DISCOVER"]), ("GATE", [])]

/-- Dictionary get with default empty list, as used on TYPE_DEPENDENCIES. -/
def typeDepsOf (t : String) : List String :=
  ((TYPE_DEPENDENCIES.find? (fun p => p.1 == t)).map Prod.snd).getD []

/-- PRIORITY table of the source. -/
def PRIORITY : List (String × Nat) := [
  ("LOOKUP", 1), ("MATCH", 2), ("GATE", 3), ("DISCOVER", 4),
  ("STORE", 5), ("APPLY", 6), ("UNKNOWN", 7)]

/-- Dictionary get with default 99, as used on PRIORITY in the sort key. -/
def priorityOf (t : String) : Nat :=
  ((PRIORITY.find? (fun p => p.1 == t)).map Prod.snd).getD 99

/-- One parsed instruction entry. -/
structure Entry where
  id : Nat
  original : String
  components : Components
  type : String
deriving DecidableEq

/-- Entry used as the default of list indexing (indices produced by the sort
are always in range, so it is never returned). -/
def defaultEntry : Entry :=
  { id := 0, original := "", type := "",
    components := { trigger := "", action := "", condition := "", object := "" } }

namespace BehavioralCompiler

/-- The parse loop: ids are assigned by a counter starting at 0, so entry i
carries id i. -/
def parse (raw_instructions : List String) : List Entry :=
  raw_instructions.enum.map (fun p =>
    let comp := extract_components p.2
    { id := p.1, original := p.2, components := comp, type := classify_instruction comp })

/-- All ids of entries of a given type, in list order. -/
def type_to_ids (parsed : List Entry) (t : String) : List Nat :=
  (parsed.filter (fun e => e.type == t)).map (fun e => e.id)

/-- The dependency set of node cur: for each required type of the type of the
entry with id cur, every id of that type strictly below cur; plus the
sequential edge from cur - 1 when 1 <= cur < number of entries. -/
def build_dependency_graph (parsed : List Entry) (cur : Nat) : Finset Nat :=
  ((parsed.filter (fun e => e.id == cur)).flatMap (fun e =>
    (typeDepsOf e.type).flatMap (fun dt =>
      (type_to_ids parsed dt).filter (fun d => d < cur)))).toFinset
  ∪ (if 1 ≤ cur ∧ cur < parsed.length then {cur - 1} else ∅)

/-- The whole graph as a list indexed by node id 0 .. n-1. -/
def graphList (parsed : List Entry) : List (Finset Nat) :=
  (List.range parsed.length).map (build_dependency_graph parsed)

/-- The dependency set of node i in a graph list (empty beyond the list). -/
def graphAt (g : List (Finset Nat)) (i : Nat) : Finset Nat := g.getD i ∅

/-- The type of the entry at index x (parsed lists index entries by id). -/
def entry_type (parsed : List Entry) (x : Nat) : String :=
  ((parsed[x]?).map (fun e => e.type)).getD ""

/-- The sort key of the source: priority of the type, then original index. -/
def sortKey (parsed : List Entry) (x : Nat) : Nat × Nat :=
  (priorityOf (entry_type parsed x), x)

/-- Lexicographic comparison of sort keys; since the second key component is
the node itself, the key is injective and this order is total. -/
def readyLe (parsed : List Entry) (a b : Nat) : Prop :=
  (sortKey parsed a).1 < (sortKey parsed b).1 ∨
    ((sortKey parsed a).1 = (sortKey parsed b).1 ∧ a ≤ b)

instance readyLeDecidable (parsed : List Entry) : DecidableRel (readyLe parsed) :=
  fun a b => by unfold readyLe; infer_instance

instance readyLeTotal (parsed : List Entry) : IsTotal Nat (readyLe parsed) :=
  ⟨fun a b => by unfold readyLe; omega⟩

instance readyLeTrans (parsed : List Entry) : IsTrans Nat (readyLe parsed) :=
  ⟨fun a b c hab hbc => by unfold readyLe at *; omega⟩

/-- The mutable state of the sort loop.  The indegree dictionary of the
source always equals the cardinality of the corresponding graph entry (both
are initialized that way and are decremented together), so it is represented
by that cardinality. -/
structure SortState where
  graph : List (Finset Nat)
  ready : List Nat
  order : List Nat
deriving DecidableEq

/-- One iteration of the while loop of topological_sort: sort the ready list
by key and pop its head (Python list.sort is a stable sort and the key is
injective, so the sorted list is the unique key-sorted permutation, computed
here by insertion sort); append the popped node to the order; remove it from
every dependency set; nodes whose indegree thereby reaches zero (their set
was exactly the popped singleton) are appended to ready in index order. -/
def sortStep (parsed : List Entry) (s : SortState) : SortState :=
  match List.insertionSort (readyLe parsed) s.ready with
  | [] => s
  | n :: rest =>
    { graph := s.graph.map (fun deps => deps.erase n),
      order := s.order ++ [n],
      ready := rest ++ (List.range parsed.length).filter
        (fun nxt => decide (graphAt s.graph nxt = {n})) }

/-- The while loop, driven by fuel; the fuel passed by topological_sort
dominates the loop measure, so the loop always exits because ready is empty,
exactly like the while loop of the source. -/
def sortLoop (parsed : List Entry) : Nat → SortState → SortState
  | 0, s => s
  | fuel + 1, s => if s.ready.isEmpty then s else sortLoop parsed fuel (sortStep parsed s)

/-- Initial sort state: indegrees are the cardinalities of the dependency
sets, and the initially ready nodes are those with empty dependency set, in
index order. -/
def initState (parsed : List Entry) (graph : List (Finset Nat)) : SortState :=
  { graph := graph,
    ready := (List.range parsed.length).filter (fun i => decide (graphAt graph i = ∅)),
    order := [] }

/-- Fuel dominating the loop measure (ready length plus total edge count);
the extra parsed.length summand is a convenient slack. -/
def sortFuel (parsed : List Entry) (s : SortState) : Nat :=
  parsed.length + s.ready.length + (s.graph.map Finset.card).sum

/-- The state after the while loop has run to completion. -/
def sortRun (parsed : List Entry) (graph : List (Finset Nat)) : SortState :=
  sortLoop parsed (sortFuel parsed (initState parsed graph)) (initState parsed graph)

/-- Kahn-style topological sort of the source: run the loop, then fail with
the circular-dependency error when the emitted order misses some node. -/
def topological_sort (parsed : List Entry) (graph : List (Finset Nat)) :
    Except String (List Nat) :=
  let final := sortRun parsed graph
  if final.order.length ≠ parsed.length then Except.error "Circular dependency detected"
  else Except.ok final.order

/-- Template rendering of one entry.  The source reads the object and
condition components with dictionary get defaults, which never apply since
extract_components always stores all four keys. -/
def generate_directive (entry : Entry) : String :=
  let typ := entry.type
  let comp := entry.components
  let obj := if (comp.get "object" "") = "" then "data" else comp.get "object" ""
  if typ = "LOOKUP" then
    "AT THE START OF EVERY CONVERSATION:\nSearch memory for \"" ++ obj ++
      ":*\" and load all results. YOU MUST do this before anything else."
  else if typ = "MATCH" then
    "WHEN THE USER SENDS A MESSAGE:\nFirst, match their query against the loaded " ++
      obj ++ " keywords. DO NOT SKIP THIS STEP."
  else if typ = "DISCOVER" then
    "IF NO MATCH IS FOUND:\nYou MUST DISCOVER the answer using available tools. Determine which tool fits and invoke it."
  else if typ = "STORE" then
    "AFTER SUCCESSFUL DISCOVERY:\nStore what worked. Save the route with its tool, parameters, query, and keywords from the user\x27s question. THIS STEP IS MANDATORY."
  else if typ = "APPLY" then
    "BEFORE RESPONDING:\nCheck for any output preferences (e.g., units) and apply them to the answer. DO NOT SKIP."
  else if typ = "GATE" then
    "IF " ++ pyUpper (comp.get "condition" "some condition") ++
      ":\nProceed with next step. OTHERWISE, skip."
  else "# UNKNOWN INSTRUCTION: " ++ entry.original

/-- The compiler facade: split, parse, build the graph, sort, render each
entry in sorted order, join with blank lines; a sort error aborts the
compile with no output. -/
def compile (raw_text : String) : Except String String :=
  let parsed := parse (split_compound raw_text)
  let graph := graphList parsed
  match topological_sort parsed graph with
  | Except.error e => Except.error e
  | Except.ok order => Except.ok (String.intercalate "\n\n"
      (order.map (fun i => generate_directive (parsed.getD i defaultEntry))))

end BehavioralCompiler

open BehavioralCompiler

/-! Structural facts about the dependency graph. -/

/-- Every dependency of node cur has a strictly smaller id: type-level
dependencies are filtered by d < cur and the sequential edge is cur - 1. -/
theorem bdg_subset_range (parsed : List Entry) (cur : Nat) :
    build_dependency_graph parsed cur ⊆ Finset.range cur := by
  intro a ha
  rw [build_dependency_graph, Finset.mem_union] at ha
  rcases ha with ha | ha
  · rw [List.mem_toFinset, List.mem_flatMap] at ha
    obtain ⟨e, _, ha⟩ := ha
    rw [List.mem_flatMap] at ha
    obtain ⟨dt, _, ha⟩ := ha
    rw [List.mem_filter, decide_eq_true_iff] at ha
    exact Finset.mem_range.mpr ha.2
  · split at ha
    · next h =>
      rw [Finset.mem_singleton] at ha
      exact Finset.mem_range.mpr (by omega)
    · simp at ha

/-- The sequential edge: node cur depends on node cur - 1. -/
theorem seq_mem_bdg (parsed : List Entry) (cur : Nat) (h1 : 1 ≤ cur)
    (h2 : cur < parsed.length) : cur - 1 ∈ build_dependency_graph parsed cur := by
  rw [build_dependency_graph, Finset.mem_union]
  right
  rw [if_pos ⟨h1, h2⟩]
  exact Finset.mem_singleton_self _

/-- Reading the graph list at an index in range gives that node's
dependency set. -/
theorem graphAt_graphList (parsed : List Entry) (i : Nat) (h : i < parsed.length) :
    graphAt (graphList parsed) i = build_dependency_graph parsed i := by
  rw [graphAt, graphList, List.getD_eq_getElem?_getD, List.getElem?_map,
    List.getElem?_range h]
  rfl

/-- Reading the graph list beyond its length gives the empty set. -/
theorem graphAt_graphList_of_le (parsed : List Entry) (i : Nat)
    (h : parsed.length ≤ i) : graphAt (graphList parsed) i = ∅ := by
  rw [graphAt, graphList, List.getD_eq_getElem?_getD]
  have : (List.range parsed.length)[i]? = none := by
    rw [List.getElem?_eq_none]
    simpa using h
  rw [List.getElem?_map, this]
  rfl

/-- The graph list has one entry per parsed instruction. -/
theorem graphList_length (parsed : List Entry) :
    (graphList parsed).length = parsed.length := by
  rw [graphList, List.length_map, List.length_range]

/-- Reading a mapped graph list, for a map sending the empty set to itself. -/
theorem graphAt_map (g : List (Finset Nat)) (f : Finset Nat → Finset Nat)
    (hf : f ∅ = ∅) (i : Nat) : graphAt (g.map f) i = f (graphAt g i) := by
  rw [graphAt, graphAt, List.getD_eq_getElem?_getD, List.getD_eq_getElem?_getD,
    List.getElem?_map]
  cases g[i]? with
  | none => simpa using hf.symm
  | some d => rfl

/-- Erasing k after removing everything below k removes everything below
k + 1. -/
theorem sdiff_range_erase (d : Finset Nat) (k : Nat) :
    (d \ Finset.range k).erase k = d \ Finset.range (k + 1) := by
  ext a
  simp only [Finset.mem_erase, Finset.mem_sdiff, Finset.mem_range]
  constructor
  · rintro ⟨hne, hmem, hlt⟩
    exact ⟨hmem, by omega⟩
  · rintro ⟨hmem, hlt⟩
    exact ⟨by omega, hmem, by omega⟩

/-- A filter over an index range whose predicate holds exactly at one index
in range yields that singleton. -/
theorem filter_range_eq_single (p : Nat → Bool) (n a : Nat) (ha : a < n)
    (h : ∀ x, x < n → (p x = true ↔ x = a)) :
    (List.range n).filter p = [a] := by
  induction n with
  | zero => omega
  | succ m ih =>
    rw [List.range_succ, List.filter_append]
    by_cases ham : a = m
    · have h1 : (List.range m).filter p = [] := by
        rw [List.filter_eq_nil_iff]
        intro x hx
        rw [List.mem_range] at hx
        intro hp
        have := (h x (by omega)).mp hp
        omega
      have h2 : List.filter p [m] = [m] := by
        have : p m = true := (h m (by omega)).mpr ham.symm
        simp [this]
      rw [h1, h2, ham]
      rfl
    · have h1 : (List.range m).filter p = [a] := by
        refine ih (by omega) ?_
        intro x hx
        exact h x (by omega)
      have h2 : List.filter p [m] = [] := by
        have : ¬ p m = true := fun hp => ham ((h m (by omega)).mp hp).symm
        simp [this]
      rw [h1, h2]
      rfl

/-- A filter over an index range whose predicate never holds yields the
empty list. -/
theorem filter_range_eq_nil (p : Nat → Bool) (n : Nat)
    (h : ∀ x, x < n → p x = false) : (List.range n).filter p = [] := by
  rw [List.filter_eq_nil_iff]
  intro x hx
  rw [List.mem_range] at hx
  simp [h x hx]

section IdentityRun

variable (parsed : List Entry) (G : List (Finset Nat))

/-- The state after k iterations of the loop, when the graph has the chain
shape produced by build_dependency_graph: k nodes emitted in id order, node
k alone ready, and all edges from emitted nodes removed. -/
def chainState (k : Nat) : SortState :=
  { graph := G.map (fun d => d \ Finset.range k),
    ready := if k < parsed.length then [k] else [],
    order := List.range k }

/-- One loop iteration advances the chain state. -/
theorem sortStep_chainState
    (hsub : ∀ i, graphAt G i ⊆ Finset.range i)
    (hseq : ∀ i, 1 ≤ i → i < parsed.length → i - 1 ∈ graphAt G i)
    (k : Nat) (hk : k < parsed.length) :
    sortStep parsed (chainState parsed G k) = chainState parsed G (k + 1) := by
  have hready : (chainState parsed G k).ready = [k] := by
    simp [chainState, hk]
  have hsorted : List.insertionSort (readyLe parsed) (chainState parsed G k).ready = [k] := by
    rw [hready]
    rfl
  have hAt : ∀ nxt, graphAt (chainState parsed G k).graph nxt =
      graphAt G nxt \ Finset.range k := fun nxt =>
    graphAt_map G (fun d => d \ Finset.range k) (Finset.empty_sdiff _) nxt
  have key : ∀ x, x < parsed.length →
      ((graphAt G x \ Finset.range k = {k}) ↔ (x = k + 1 ∧ k + 1 < parsed.length)) := by
    intro x hx
    constructor
    · intro hEq
      rcases Nat.lt_or_ge x (k + 1) with hlt | hge
      · exfalso
        have hempty : graphAt G x \ Finset.range k = ∅ := by
          rw [Finset.sdiff_eq_empty_iff_subset]
          exact (hsub x).trans (Finset.range_subset.mpr (by omega))
        rw [hempty] at hEq
        exact Finset.singleton_ne_empty k hEq.symm
      · rcases Nat.eq_or_lt_of_le hge with hEq2 | hgt
        · exact ⟨hEq2.symm, by omega⟩
        · exfalso
          have hx1 : x - 1 ∈ graphAt G x := hseq x (by omega) hx
          have hx1m : x - 1 ∈ graphAt G x \ Finset.range k := by
            rw [Finset.mem_sdiff, Finset.mem_range]
            exact ⟨hx1, by omega⟩
          rw [hEq, Finset.mem_singleton] at hx1m
          omega
    · rintro ⟨rfl, hk1⟩
      ext a
      simp only [Finset.mem_sdiff, Finset.mem_range, Finset.mem_singleton]
      constructor
      · rintro ⟨hmem, hnlt⟩
        have := Finset.mem_range.mp (hsub (k + 1) hmem)
        omega
      · intro ha
        rw [ha]
        exact ⟨by simpa using hseq (k + 1) (by omega) hk1, by omega⟩
  have hfilter : (List.range parsed.length).filter
      (fun nxt => decide (graphAt (chainState parsed G k).graph nxt = {k})) =
      if k + 1 < parsed.length then [k + 1] else [] := by
    by_cases hk1 : k + 1 < parsed.length
    · rw [if_pos hk1]
      refine filter_range_eq_single _ _ _ hk1 ?_
      intro x hx
      rw [decide_eq_true_iff, hAt, key x hx]
      constructor
      · rintro ⟨rfl, _⟩; rfl
      · rintro rfl; exact ⟨rfl, hk1⟩
    · rw [if_neg hk1]
      refine filter_range_eq_nil _ _ ?_
      intro x hx
      rw [decide_eq_false_iff_not, hAt]
      intro hEq
      exact hk1 ((key x hx).mp hEq).2
  have hstep : sortStep parsed (chainState parsed G k) = SortState.mk
      ((chainState parsed G k).graph.map (fun deps => deps.erase k))
      ([] ++ (List.range parsed.length).filter
        (fun nxt => decide (graphAt (chainState parsed G k).graph nxt = {k})))
      ((chainState parsed G k).order ++ [k]) := by
    unfold sortStep
    rw [hsorted]
  rw [hstep, List.nil_append, hfilter]
  have hgraph : List.map (fun deps => deps.erase k) (chainState parsed G k).graph
      = List.map (fun d => d \ Finset.range (k + 1)) G := by
    show List.map (fun deps => deps.erase k) (List.map (fun d => d \ Finset.range k) G) = _
    rw [List.map_map]
    refine List.map_congr_left ?_
    intro d _
    exact sdiff_range_erase d k
  have horder : (chainState parsed G k).order ++ [k] = List.range (k + 1) := by
    show List.range k ++ [k] = _
    exact (List.range_succ k).symm
  rw [hgraph, horder]
  rfl

/-- Enough fuel drives the loop from any chain state to the final chain
state. -/
theorem sortLoop_chainState
    (hsub : ∀ i, graphAt G i ⊆ Finset.range i)
    (hseq : ∀ i, 1 ≤ i → i < parsed.length → i - 1 ∈ graphAt G i) :
    ∀ (j k : Nat), k ≤ parsed.length → parsed.length ≤ k + j →
    sortLoop parsed j (chainState parsed G k) = chainState parsed G parsed.length := by
  intro j
  induction j with
  | zero =>
    intro k hk hfuel
    have : k = parsed.length := by omega
    rw [this]
    rfl
  | succ m ih =>
    intro k hk hfuel
    rcases Nat.eq_or_lt_of_le hk with hEq | hlt
    · rw [hEq, sortLoop]
      have : (chainState parsed G parsed.length).ready.isEmpty = true := by
        simp [chainState]
      rw [if_pos this]
    · rw [sortLoop]
      have hne : (chainState parsed G k).ready.isEmpty = false := by
        simp [chainState, hlt]
      rw [if_neg (by rw [hne]; exact Bool.false_ne_true)]
      rw [sortStep_chainState parsed G hsub hseq k hlt]
      exact ih (k + 1) (by omega) (by omega)

/-- The initial state of the sort is the chain state at step 0. -/
theorem initState_chainState
    (hsub : ∀ i, graphAt G i ⊆ Finset.range i)
    (hseq : ∀ i, 1 ≤ i → i < parsed.length → i - 1 ∈ graphAt G i) :
    initState parsed G = chainState parsed G 0 := by
  have hready : (List.range parsed.length).filter
      (fun i => decide (graphAt G i = ∅)) =
      if 0 < parsed.length then [0] else [] := by
    by_cases hn : 0 < parsed.length
    · rw [if_pos hn]
      refine filter_range_eq_single _ _ _ hn ?_
      intro x hx
      rw [decide_eq_true_iff]
      constructor
      · intro hEq
        by_contra hne
        have h1 : x - 1 ∈ graphAt G x := hseq x (by omega) hx
        rw [hEq] at h1
        exact absurd h1 (Finset.not_mem_empty _)
      · intro hx0
        rw [hx0]
        have := hsub 0
        rw [Finset.range_zero] at this
        exact Finset.subset_empty.mp this
    · rw [if_neg hn]
      have : parsed.length = 0 := by omega
      rw [this]
      rfl
  have hgraph : G = List.map (fun d => d \ Finset.range 0) G := by
    rw [Finset.range_zero]
    conv_lhs => rw [← List.map_id G]
    refine List.map_congr_left ?_
    intro d _
    exact (Finset.sdiff_empty).symm
  rw [initState, chainState, hready, ← hgraph]
  rfl

/-- Main structural theorem: on a chain-shaped graph the while loop emits
the nodes in id order 0, 1, ..., n-1 and terminates with an empty ready
list. -/
theorem sortRun_chain
    (hsub : ∀ i, graphAt G i ⊆ Finset.range i)
    (hseq : ∀ i, 1 ≤ i → i < parsed.length → i - 1 ∈ graphAt G i) :
    sortRun parsed G = chainState parsed G parsed.length := by
  rw [sortRun, initState_chainState parsed G hsub hseq]
  refine sortLoop_chainState parsed G hsub hseq _ 0 (Nat.zero_le _) ?_
  rw [sortFuel]
  omega

end IdentityRun

/-- The pipeline graph satisfies the chain hypotheses: all edges point to
strictly smaller ids. -/
theorem graphList_sub (parsed : List Entry) (i : Nat) :
    graphAt (graphList parsed) i ⊆ Finset.range i := by
  rcases Nat.lt_or_ge i parsed.length with h | h
  · rw [graphAt_graphList parsed i h]
    exact bdg_subset_range parsed i
  · rw [graphAt_graphList_of_le parsed i h]
    exact Finset.empty_subset _

/-- The pipeline graph satisfies the chain hypotheses: each node past the
first depends on its predecessor. -/
theorem graphList_seq (parsed : List Entry) (i : Nat) (h1 : 1 ≤ i)
    (h2 : i < parsed.length) : i - 1 ∈ graphAt (graphList parsed) i := by
  rw [graphAt_graphList parsed i h2]
  exact seq_mem_bdg parsed i h1 h2

/-- On every pipeline graph the topological sort succeeds and emits the
identity order. -/
theorem topological_sort_graphList (parsed : List Entry) :
    topological_sort parsed (graphList parsed) =
      Except.ok (List.range parsed.length) := by
  rw [topological_sort]
  rw [sortRun_chain parsed (graphList parsed) (graphList_sub parsed) (graphList_seq parsed)]
  have hlen : (chainState parsed (graphList parsed) parsed.length).order.length
      = parsed.length := by
    simp [chainState]
  rw [if_neg (by rw [hlen]; exact fun h => h rfl)]
  rfl

/-- Reading each index of the range back from a list reproduces the list. -/
theorem map_getD_range (l : List Entry) (d : Entry) :
    (List.range l.length).map (fun i => l.getD i d) = l := by
  refine List.ext_getElem (by rw [List.length_map, List.length_range]) ?_
  intro i h1 h2
  have hi : i < l.length := by
    rw [List.length_map, List.length_range] at h1
    exact h1
  rw [List.getElem_map, List.getElem_range]
  exact List.getD_eq_getElem l d hi

/-- Reading each index of the range back and applying a map reproduces the
mapped list. -/
theorem map_comp_getD_range (l : List Entry) (d : Entry) (g : Entry → String) :
    (List.range l.length).map (fun i => g (l.getD i d)) = l.map g := by
  rw [show (fun i => g (l.getD i d)) = g ∘ (fun i => l.getD i d) from rfl,
    ← List.map_map, map_getD_range]

/-- compile renders the parsed entries in their original order. -/
theorem compile_eq_original_order (raw_text : String) :
    compile raw_text = Except.ok (String.intercalate "\n\n"
      ((parse (split_compound raw_text)).map generate_directive)) := by
  have hmap : (List.range (parse (split_compound raw_text)).length).map
      (fun i => generate_directive ((parse (split_compound raw_text)).getD i defaultEntry))
      = (parse (split_compound raw_text)).map generate_directive :=
    map_comp_getD_range _ _ _
  rw [compile, topological_sort_graphList]
  show Except.ok (String.intercalate "\n\n"
    ((List.range (parse (split_compound raw_text)).length).map
      (fun i => generate_directive ((parse (split_compound raw_text)).getD i defaultEntry)))) = _
  rw [hmap]

/-! Loop invariant of the sorter over an arbitrary input graph. -/

/-- Invariant of the while loop: emitted and ready nodes are pairwise
distinct in-range indices whose unresolved-predecessor sets are empty, and
every in-range node outside them still has unresolved predecessors (so the
ready list holds exactly the unemitted nodes of indegree zero). -/
def SortInv (parsed : List Entry) (s : SortState) : Prop :=
  (s.order ++ s.ready).Nodup ∧
  (∀ x ∈ s.order ++ s.ready, x < parsed.length) ∧
  (∀ x ∈ s.order ++ s.ready, graphAt s.graph x = ∅) ∧
  (∀ x, x < parsed.length → x ∉ s.order ++ s.ready → graphAt s.graph x ≠ ∅)

/-- The initial state satisfies the invariant for every input graph. -/
theorem sortInv_init (parsed : List Entry) (graph : List (Finset Nat)) :
    SortInv parsed (initState parsed graph) := by
  refine ⟨?_, ?_, ?_, ?_⟩
  · simp only [initState, List.nil_append]
    exact (List.nodup_range parsed.length).filter _
  · intro x hx
    simp only [initState, List.nil_append, List.mem_filter, List.mem_range] at hx
    exact hx.1
  · intro x hx
    simp only [initState, List.nil_append, List.mem_filter, decide_eq_true_iff] at hx
    exact hx.2
  · intro x hx hmem
    simp only [initState, List.nil_append, List.mem_filter] at hmem
    intro hEq
    exact hmem ⟨List.mem_range.mpr hx, decide_eq_true_iff.mpr hEq⟩

/-- An erased set is empty only when the set was empty or exactly the
erased singleton. -/
theorem erase_eq_empty_cases {d : Finset Nat} {m : Nat} (h : d.erase m = ∅) :
    d = ∅ ∨ d = {m} := by
  rw [Finset.erase_eq, Finset.sdiff_eq_empty_iff_subset] at h
  exact Finset.subset_singleton_iff.mp h

/-- One loop iteration preserves the invariant. -/
theorem sortInv_step (parsed : List Entry) (s : SortState)
    (hInv : SortInv parsed s) : SortInv parsed (sortStep parsed s) := by
  obtain ⟨hNodup, hLt, hEmpty, hNe⟩ := hInv
  cases hs : List.insertionSort (readyLe parsed) s.ready with
  | nil =>
    have : sortStep parsed s = s := by
      unfold sortStep
      rw [hs]
    rw [this]
    exact ⟨hNodup, hLt, hEmpty, hNe⟩
  | cons m rest =>
    have hp : (m :: rest).Perm s.ready := by
      rw [← hs]
      exact List.perm_insertionSort _ _
    have hstep : sortStep parsed s = SortState.mk
        (s.graph.map (fun deps => deps.erase m))
        (rest ++ (List.range parsed.length).filter
          (fun nxt => decide (graphAt s.graph nxt = {m})))
        (s.order ++ [m]) := by
      unfold sortStep
      rw [hs]
    set newly := (List.range parsed.length).filter
      (fun nxt => decide (graphAt s.graph nxt = {m})) with hnewly
    have hmemNewly : ∀ x, x ∈ newly ↔ (x < parsed.length ∧ graphAt s.graph x = {m}) := by
      intro x
      rw [hnewly, List.mem_filter, List.mem_range, decide_eq_true_iff]
    have hAt : ∀ x, graphAt (s.graph.map (fun deps => deps.erase m)) x =
        (graphAt s.graph x).erase m := fun x =>
      graphAt_map s.graph (fun deps => deps.erase m) (Finset.erase_empty m) x
    have hPerm : ((s.order ++ [m]) ++ (rest ++ newly)).Perm
        ((s.order ++ s.ready) ++ newly) := by
      have h1 : (s.order ++ [m]) ++ (rest ++ newly) = s.order ++ ((m :: rest) ++ newly) := by
        rw [List.append_assoc]
        rfl
      rw [h1, List.append_assoc]
      exact ((hp.append_right newly).append_left s.order)
    have hNewlyNodup : newly.Nodup := (List.nodup_range parsed.length).filter _
    have hNewlyFresh : ∀ x ∈ newly, x ∉ s.order ++ s.ready := by
      intro x hx hmem
      have h1 := hEmpty x hmem
      have h2 := ((hmemNewly x).mp hx).2
      rw [h1] at h2
      exact Finset.singleton_ne_empty m h2.symm
    rw [hstep]
    refine ⟨?_, ?_, ?_, ?_⟩
    · rw [hPerm.nodup_iff]
      rw [List.nodup_append]
      exact ⟨hNodup, hNewlyNodup, fun a ha hb => hNewlyFresh a hb ha⟩
    · intro x hx
      have := hPerm.mem_iff.mp hx
      rw [List.mem_append] at this
      rcases this with h | h
      · exact hLt x h
      · exact ((hmemNewly x).mp h).1
    · intro x hx
      rw [hAt]
      have := hPerm.mem_iff.mp hx
      rw [List.mem_append] at this
      rcases this with h | h
      · rw [hEmpty x h]
        exact Finset.erase_empty m
      · rw [((hmemNewly x).mp h).2]
        ext a
        simp [Finset.mem_erase]
    · intro x hx hmem
      rw [hAt]
      have hnot := fun h => hmem (hPerm.mem_iff.mpr (List.mem_append.mpr h))
      have hOld : x ∉ s.order ++ s.ready := fun h => hnot (Or.inl h)
      have hNew : x ∉ newly := fun h => hnot (Or.inr h)
      intro hEq
      rcases erase_eq_empty_cases hEq with h | h
      · exact hNe x hx hOld h
      · exact hNew ((hmemNewly x).mpr ⟨hx, h⟩)

/-- The loop preserves the invariant for any amount of fuel. -/
theorem sortInv_loop (parsed : List Entry) :
    ∀ (fuel : Nat) (s : SortState), SortInv parsed s →
      SortInv parsed (sortLoop parsed fuel s) := by
  intro fuel
  induction fuel with
  | zero => intro s h; exact h
  | succ m ih =>
    intro s h
    rw [sortLoop]
    by_cases he : s.ready.isEmpty
    · rw [if_pos he]; exact h
    · rw [if_neg he]
      exact ih _ (sortInv_step parsed s h)

/-- Any state satisfying the invariant has emitted at most one order entry
per instruction. -/
theorem order_length_le (parsed : List Entry) (s : SortState)
    (hInv : SortInv parsed s) : s.order.length ≤ parsed.length := by
  obtain ⟨hNodup, hLt, _, _⟩ := hInv
  have hONodup : s.order.Nodup := (List.nodup_append.mp hNodup).1
  have hsub : s.order.toFinset ⊆ Finset.range parsed.length := by
    intro a ha
    rw [List.mem_toFinset] at ha
    exact Finset.mem_range.mpr (hLt a (List.mem_append.mpr (Or.inl ha)))
  calc s.order.length = s.order.toFinset.card := (List.toFinset_card_of_nodup hONodup).symm
    _ ≤ (Finset.range parsed.length).card := Finset.card_le_card hsub
    _ = parsed.length := Finset.card_range _

/-- The final state of the sorter run satisfies the invariant. -/
theorem sortInv_sortRun (parsed : List Entry) (graph : List (Finset Nat)) :
    SortInv parsed (sortRun parsed graph) :=
  sortInv_loop parsed _ _ (sortInv_init parsed graph)

/-- Reflexivity of the ready-list order. -/
theorem readyLe_refl (parsed : List Entry) (x : Nat) : readyLe parsed x x :=
  Or.inr ⟨rfl, Nat.le_refl x⟩

/-- Every iterate of the loop body from the initial state satisfies the
invariant. -/
theorem sortInv_iterate (parsed : List Entry) (graph : List (Finset Nat)) :
    ∀ k, SortInv parsed ((sortStep parsed)^[k] (initState parsed graph)) := by
  intro k
  induction k with
  | zero => exact sortInv_init parsed graph
  | succ m ih =>
    rw [Function.iterate_succ_apply']
    exact sortInv_step parsed _ ih

/-- When the sorted ready list is nonempty its head is the emitted node, it
is an unemitted node of indegree zero, and its key is minimal among all
unemitted nodes of indegree zero. -/
theorem sortStep_min (parsed : List Entry) (s : SortState) (hInv : SortInv parsed s)
    (m : Nat) (rest : List Nat)
    (hs : List.insertionSort (readyLe parsed) s.ready = m :: rest) :
    (sortStep parsed s).order = s.order ++ [m] ∧
    m < parsed.length ∧ m ∉ s.order ∧ graphAt s.graph m = ∅ ∧
    (∀ x, x < parsed.length → x ∉ s.order → graphAt s.graph x = ∅ →
      readyLe parsed m x) := by
  obtain ⟨hNodup, hLt, hEmpty, hNe⟩ := hInv
  have hp : (m :: rest).Perm s.ready := by
    rw [← hs]
    exact List.perm_insertionSort _ _
  have hmem : m ∈ s.ready := hp.subset (List.mem_cons_self m rest)
  refine ⟨?_, ?_, ?_, ?_, ?_⟩
  · unfold sortStep
    rw [hs]
  · exact hLt m (List.mem_append.mpr (Or.inr hmem))
  · intro hmo
    exact (List.nodup_append.mp hNodup).2.2 hmo hmem
  · exact hEmpty m (List.mem_append.mpr (Or.inr hmem))
  · intro x hx hxo hxe
    have hxmem : x ∈ s.order ++ s.ready := by
      by_contra hc
      exact hNe x hx hc hxe
    have hxready : x ∈ s.ready := by
      rcases List.mem_append.mp hxmem with h | h
      · exact absurd h hxo
      · exact h
    have hxcons : x ∈ m :: rest := hp.symm.subset hxready
    rcases List.mem_cons.mp hxcons with hEq | hrest
    · rw [hEq]
      exact readyLe_refl parsed m
    · have hsorted := List.sorted_insertionSort (readyLe parsed) s.ready
      rw [hs] at hsorted
      exact List.rel_of_sorted_cons hsorted x hrest

/-- The circular-dependency error is raised exactly when the loop consumed
fewer nodes than exist. -/
theorem topological_sort_error_iff (parsed : List Entry) (graph : List (Finset Nat)) :
    topological_sort parsed graph = Except.error "Circular dependency detected" ↔
      (sortRun parsed graph).order.length < parsed.length := by
  rw [topological_sort]
  by_cases h : (sortRun parsed graph).order.length ≠ parsed.length
  · rw [if_pos h]
    have hle := order_length_le parsed _ (sortInv_sortRun parsed graph)
    constructor
    · intro _
      omega
    · intro _
      rfl
  · rw [if_neg h]
    constructor
    · intro hc
      exact Except.noConfusion hc
    · intro hlt
      omega

/-- compile is exactly the sort result mapped through rendering: a sort
error propagates unchanged with no output string produced. -/
theorem compile_eq_map (raw_text : String) :
    compile raw_text = Except.map
      (fun order => String.intercalate "\n\n" (order.map
        (fun i => generate_directive ((parse (split_compound raw_text)).getD i defaultEntry))))
      (topological_sort (parse (split_compound raw_text))
        (graphList (parse (split_compound raw_text)))) := by
  have hunfold : compile raw_text =
      match topological_sort (parse (split_compound raw_text))
        (graphList (parse (split_compound raw_text))) with
      | Except.error e => Except.error e
      | Except.ok order => Except.ok (String.intercalate "\n\n" (order.map
          (fun i => generate_directive ((parse (split_compound raw_text)).getD i defaultEntry)))) := rfl
  cases h : topological_sort (parse (split_compound raw_text))
      (graphList (parse (split_compound raw_text))) with
  | error e =>
    rw [hunfold, h]
    rfl
  | ok o =>
    rw [hunfold, h]
    rfl

/-! Facts about the classifier and the pattern matcher used by the claims. -/

/-- The classifier with an empty action is decided solely by condition and
trigger. -/
theorem classify_no_action (comp : Components) (h : comp.action = "") :
    classify_instruction comp =
      (if comp.condition ≠ "" then "GATE"
       else if comp.trigger = "conversation_start" then "LOOKUP"
       else if comp.trigger = "on_miss" then "DISCOVER"
       else if comp.trigger = "on_success" then "STORE"
       else if comp.trigger = "pre_response" then "APPLY"
       else "UNKNOWN") := by
  have h1 : ¬(comp.action ∈ (["retrieve", "search", "load", "get"] : List String) ∧
      comp.object = "memory") := by
    rintro ⟨ha, _⟩
    rw [h] at ha
    exact absurd ha (by decide)
  have h2 : ¬(comp.action = "match" ∨ (comp.action ∈ (["compare", "map"] : List String) ∧
      comp.object ∈ (["domain", "route"] : List String))) := by
    rintro (ha | ⟨ha, _⟩) <;> rw [h] at ha
    · exact absurd ha (by decide)
    · exact absurd ha (by decide)
  have h3 : comp.action ∉ (["discover", "tool_call"] : List String) := by
    intro ha
    rw [h] at ha
    exact absurd ha (by decide)
  have h4 : comp.action ∉ (["store", "create"] : List String) := by
    intro ha
    rw [h] at ha
    exact absurd ha (by decide)
  have h5 : comp.action ≠ "transform" := by
    rw [h]
    decide
  rw [classify_instruction, if_neg h1, if_neg h2, if_neg h3, if_neg h4, if_neg h5]

/-- Only ASCII uppercase letters move under toLower, so only the backslash
itself lowers to a backslash. -/
theorem toNat_ofNatAux (n : Nat) (h : n.isValidChar) : (Char.ofNatAux n h).toNat = n := rfl

/-- toNat inverts ofNat on valid code points. -/
theorem toNat_Char_ofNat (n : Nat) (h : n.isValidChar) : (Char.ofNat n).toNat = n := by
  rw [Char.ofNat, dif_pos h]
  exact toNat_ofNatAux n h

/-- A character whose lowercase form is the backslash is the backslash. -/
theorem toLower_backslash {c : Char} (h : c.toLower = '\\') : c = '\\' := by
  unfold Char.toLower at h
  simp only at h
  by_cases hc : c.toNat ≥ 65 ∧ c.toNat ≤ 90
  · rw [if_pos hc] at h
    exfalso
    have hv : (c.toNat + 32).isValidChar := by
      unfold Nat.isValidChar
      left
      omega
    have := congrArg Char.toNat h
    rw [toNat_Char_ofNat _ hv] at this
    have h92 : ('\\' : Char).toNat = 92 := by decide
    omega
  · rwa [if_neg hc] at h

/-- A pattern character that is a literal backslash never matches a
non-backslash text character, even case-insensitively. -/
theorem charMatches_backslash {t : Char} (h : t ≠ '\\') :
    charMatches '\\' t = false := by
  rw [charMatches]
  have h1 : ('\\' : Char).toLower = '\\' := by decide
  rw [h1, beq_eq_false_iff_ne]
  intro hEq
  exact h (toLower_backslash hEq.symm)

/-- The literal backslash atom fails on backslash-free text at every
position and continuation. -/
theorem matchFrom_char_bs (s : List Char) (h : '\\' ∉ s) (i : Nat) (k : Nat → Bool) :
    (Regex.char '\\').matchFrom s i k = false := by
  rw [Regex.matchFrom]
  cases hg : s[i]? with
  | none => rfl
  | some t =>
    have ht : t ∈ s := by
      have hlt : i < s.length := by
        by_contra hge
        rw [List.getElem?_eq_none (by omega)] at hg
        exact Option.noConfusion hg
      have hst : s[i] = t := by
        rw [List.getElem?_eq_getElem hlt] at hg
        exact Option.some.inj hg
      rw [← hst]
      exact List.getElem_mem hlt
    show (charMatches '\\' t && k (i + 1)) = false
    rw [charMatches_backslash (fun hEq => h (hEq ▸ ht))]
    rfl

/-- Every action pattern starts with the literal two-character text
backslash-b, so it never matches backslash-free text. -/
theorem grpBS_matchFrom_false (alts : List Regex) (s : List Char) (h : '\\' ∉ s)
    (i : Nat) (k : Nat → Bool) : (grpBS alts).matchFrom s i k = false := by
  have hshape : (grpBS alts).matchFrom s i k = (Regex.char '\\').matchFrom s i
      (fun j => (Regex.seq (Regex.char 'b') Regex.emp).matchFrom s j
        (fun j2 => (Regex.seq (Regex.altList alts) (Regex.lit "\\b")).matchFrom s j2 k)) := rfl
  rw [hshape]
  exact matchFrom_char_bs s h i _

/-- re.search of an action pattern on backslash-free text fails. -/
theorem grpBS_search_false (alts : List Regex) (t : String) (h : '\\' ∉ t.data) :
    (grpBS alts).search t = false := by
  rw [Regex.search, List.any_eq_false]
  intro i _
  rw [grpBS_matchFrom_false alts t.data h i _]
  exact Bool.false_ne_true

/-- On backslash-free text no action pattern matches, so the extracted
action label is empty. -/
theorem ffm_action_empty (t : String) (h : '\\' ∉ t.data) :
    find_first_match ACTION_PATTERNS t = "" := by
  rw [ACTION_PATTERNS]
  rw [find_first_match, if_neg (by rw [grpBS_search_false _ _ h]; exact Bool.false_ne_true)]
  rw [find_first_match, if_neg (by rw [grpBS_search_false _ _ h]; exact Bool.false_ne_true)]
  rw [find_first_match, if_neg (by rw [grpBS_search_false _ _ h]; exact Bool.false_ne_true)]
  rw [find_first_match, if_neg (by rw [grpBS_search_false _ _ h]; exact Bool.false_ne_true)]
  rw [find_first_match, if_neg (by rw [grpBS_search_false _ _ h]; exact Bool.false_ne_true)]
  rw [find_first_match, if_neg (by rw [grpBS_search_false _ _ h]; exact Bool.false_ne_true)]
  rw [find_first_match, if_neg (by rw [grpBS_search_false _ _ h]; exact Bool.false_ne_true)]
  rw [find_first_match, if_neg (by rw [grpBS_search_false _ _ h]; exact Bool.false_ne_true)]
  rfl

/-- The action component of any backslash-free fragment is empty. -/
theorem extract_action_empty (t : String) (h : '\\' ∉ t.data) :
    (extract_components t).action = "" :=
  ffm_action_empty t h

/-! Concrete inputs used by the claims below. -/

/-- Three fragments that classify STORE, DISCOVER, MATCH in authored order
(the action patterns require a literal backslash-b in the text, so the
fragments carry one). -/
def exampleSDM : String := "\\bstore\\b it. \\bdiscover\\b it. \\bmatch\\b it"

/-- The input of spec Example 1. -/
def exampleSpecOne : String :=
  "At conversation start, search memory for domains. When user sends message, match query against keywords."

/-- The parsed entries of exampleSDM. -/
def exampleParsed : List Entry := parse (split_compound exampleSDM)

/-- The dependency graph of exampleSDM. -/
def exampleGraph : List (Finset Nat) := graphList exampleParsed

/-- A GATE entry whose condition component is present but empty. -/
def gateEntryEmpty : Entry :=
  { id := 0, original := "g", type := "GATE",
    components := { trigger := "every_message", action := "", condition := "", object := "" } }

/-- A GATE entry with a nonempty condition label. -/
def gateEntryNeg : Entry :=
  { id := 0, original := "g", type := "GATE",
    components := { trigger := "every_message", action := "",
                    condition := "existence_negative", object := "" } }

/-! The claim theorems. -/

/-- Claim C1, counterexample: on an input whose three fragments classify
STORE, DISCOVER, MATCH in that authored order, the compiler emits the
directives in the authored order 0, 1, 2 (STORE first), not in the order
MATCH, DISCOVER, STORE (which would be 2, 1, 0): the type-dependency edges
only point from earlier ids, so none exist here and the sequential chain
decides. -/
theorem claim_C1_counterexample :
    (parse (split_compound exampleSDM)).map (fun e => e.type)
      = ["STORE", "DISCOVER", "MATCH"] ∧
    topological_sort (parse (split_compound exampleSDM))
      (graphList (parse (split_compound exampleSDM))) = Except.ok [0, 1, 2] ∧
    topological_sort (parse (split_compound exampleSDM))
      (graphList (parse (split_compound exampleSDM))) ≠ Except.ok [2, 1, 0] := by
  have hok : topological_sort (parse (split_compound exampleSDM))
      (graphList (parse (split_compound exampleSDM))) = Except.ok [0, 1, 2] := rfl
  refine ⟨by decide, hok, ?_⟩
  rw [hok]
  intro hEq
  rw [Except.ok.injEq] at hEq
  exact absurd hEq (by decide)

/-- Claim C1, amended: for every input text whose Splitter output is three
fragments classified STORE, DISCOVER, MATCH in that authored order, the
compiled output emits the STORE directive, then the DISCOVER directive,
then the MATCH directive — the authored order — because every
type-dependency edge points to a strictly earlier id and the sequential
edges alone force the identity order. -/
theorem claim_C1 (raw_text : String)
    (h : (parse (split_compound raw_text)).map (fun e => e.type)
      = ["STORE", "DISCOVER", "MATCH"]) :
    topological_sort (parse (split_compound raw_text))
      (graphList (parse (split_compound raw_text))) = Except.ok [0, 1, 2] ∧
    compile raw_text = Except.ok (String.intercalate "\n\n"
      ((parse (split_compound raw_text)).map generate_directive)) := by
  have hlen : (parse (split_compound raw_text)).length = 3 := by
    have := congrArg List.length h
    rwa [List.length_map] at this
  constructor
  · rw [topological_sort_graphList, hlen]
    rfl
  · exact compile_eq_original_order raw_text

/-- Witness for the amended claim C1 at the concrete input. -/
theorem claim_C1_witness :
    topological_sort (parse (split_compound exampleSDM))
      (graphList (parse (split_compound exampleSDM))) = Except.ok [0, 1, 2] ∧
    compile exampleSDM = Except.ok (String.intercalate "\n\n"
      ((parse (split_compound exampleSDM)).map generate_directive)) :=
  claim_C1 exampleSDM (by decide)

/-- Claim C2: for every input the emitted order is exactly 0, 1, ..., n-1,
so compile always renders the directive blocks in original fragment order
and the priority tie-break never changes the result. -/
theorem claim_C2 (raw_text : String) :
    topological_sort (parse (split_compound raw_text))
      (graphList (parse (split_compound raw_text)))
      = Except.ok (List.range (parse (split_compound raw_text)).length) ∧
    compile raw_text = Except.ok (String.intercalate "\n\n"
      ((parse (split_compound raw_text)).map generate_directive)) :=
  ⟨topological_sort_graphList _, compile_eq_original_order _⟩

/-- Claim C3, counterexample: the Example 1 input splits into 4 fragments,
not 2, because the splitter also splits at the two commas. -/
theorem claim_C3_counterexample :
    (split_compound exampleSpecOne).length = 4 ∧
    (split_compound exampleSpecOne).length ≠ 2 := by
  constructor
  · decide
  · decide

/-- Claim C3, amended: the Example 1 input splits into the 4 fragments at
every comma and period; fragment 0 classifies LOOKUP and fragments 1, 2, 3
classify UNKNOWN (the doubled-backslash action patterns cannot match, so
only fragment 0 gets a type from its conversation-start trigger), and the
compiled output renders the LOOKUP block first, followed by the three
UNKNOWN passthrough blocks, in original order. -/
theorem claim_C3 :
    split_compound exampleSpecOne = ["At conversation start",
      "search memory for domains", "When user sends message",
      "match query against keywords"] ∧
    (parse (split_compound exampleSpecOne)).map (fun e => e.type)
      = ["LOOKUP", "UNKNOWN", "UNKNOWN", "UNKNOWN"] ∧
    compile exampleSpecOne = Except.ok (String.intercalate "\n\n"
      ((parse (split_compound exampleSpecOne)).map generate_directive)) :=
  ⟨by decide, by decide, compile_eq_original_order _⟩

/-- Claim C4: every edge u to v materialized by the graph builder has u
before v in the emitted order whenever the sort returns one. -/
theorem claim_C4 (raw_text : String) (order : List Nat)
    (hok : topological_sort (parse (split_compound raw_text))
      (graphList (parse (split_compound raw_text))) = Except.ok order)
    (u v : Nat)
    (hedge : u ∈ graphAt (graphList (parse (split_compound raw_text))) v) :
    ∃ (i j : Nat), i < j ∧ order[i]? = some u ∧ order[j]? = some v := by
  have horder : order = List.range (parse (split_compound raw_text)).length := by
    rw [topological_sort_graphList] at hok
    exact ((Except.ok.injEq _ _).mp hok).symm
  have hvn : v < (parse (split_compound raw_text)).length := by
    by_contra hge
    rw [graphAt_graphList_of_le _ _ (by omega)] at hedge
    exact absurd hedge (Finset.not_mem_empty u)
  have huv : u < v := Finset.mem_range.mp (graphList_sub _ v hedge)
  refine ⟨u, v, huv, ?_, ?_⟩
  · rw [horder]
    exact List.getElem?_range (by omega)
  · rw [horder]
    exact List.getElem?_range hvn

/-- Witness for claim C4 at the concrete input: the sequential edge 0 to 1
is honored by the emitted order. -/
theorem claim_C4_witness :
    ∃ (i j : Nat), i < j ∧ ([0, 1, 2] : List Nat)[i]? = some 0 ∧
      ([0, 1, 2] : List Nat)[j]? = some 1 :=
  claim_C4 exampleSDM [0, 1, 2] rfl 0 1 (by decide)

/-- Claim C5: every pipeline graph is acyclic — each edge points to a
strictly smaller id and there are no self-edges — and the sort of a
pipeline graph never reaches the circular-dependency error. -/
theorem claim_C5 (raw_text : String) (v : Nat) :
    (∀ u ∈ graphAt (graphList (parse (split_compound raw_text))) v, u < v) ∧
    v ∉ graphAt (graphList (parse (split_compound raw_text))) v ∧
    ∃ order, topological_sort (parse (split_compound raw_text))
      (graphList (parse (split_compound raw_text))) = Except.ok order := by
  refine ⟨?_, ?_, ⟨_, topological_sort_graphList _⟩⟩
  · intro u hu
    exact Finset.mem_range.mp (graphList_sub _ v hu)
  · intro hv
    exact absurd (Finset.mem_range.mp (graphList_sub _ v hv)) (lt_irrefl v)

/-- Witness for claim C5 at the concrete input and its edge 0 into node 1. -/
theorem claim_C5_witness :
    0 ∈ graphAt (graphList (parse (split_compound exampleSDM))) 1 ∧ 0 < 1 :=
  ⟨by decide, (claim_C5 exampleSDM 1).1 0 (by decide)⟩

/-- Claim C6: the sort raises the circular-dependency error exactly when
the emitted order is shorter than the node count, and compile is the sort
result mapped through rendering, so an error aborts the compile with no
output string. -/
theorem claim_C6 :
    (∀ (parsed : List Entry) (graph : List (Finset Nat)),
      topological_sort parsed graph = Except.error "Circular dependency detected" ↔
        (sortRun parsed graph).order.length < parsed.length) ∧
    (∀ raw_text : String, compile raw_text = Except.map
      (fun order => String.intercalate "\n\n" (order.map
        (fun i => generate_directive ((parse (split_compound raw_text)).getD i defaultEntry))))
      (topological_sort (parse (split_compound raw_text))
        (graphList (parse (split_compound raw_text))))) :=
  ⟨topological_sort_error_iff, compile_eq_map⟩

/-- Witness for claim C6: an injected two-cycle between nodes 0 and 1 makes
the sort fail with the circular-dependency error. -/
theorem claim_C6_witness :
    topological_sort exampleParsed [{1}, {0}, {1}]
      = Except.error "Circular dependency detected" :=
  (claim_C6.1 exampleParsed [{1}, {0}, {1}]).mpr (by decide)

/-- Claim C7: at every step of the sort, the emitted node is an unemitted
node with no unresolved predecessors whose key (priority of type, id) is
minimal among all such nodes. -/
theorem claim_C7 (parsed : List Entry) (graph : List (Finset Nat)) (k m : Nat)
    (rest : List Nat)
    (hs : List.insertionSort (readyLe parsed)
      ((sortStep parsed)^[k] (initState parsed graph)).ready = m :: rest) :
    (sortStep parsed ((sortStep parsed)^[k] (initState parsed graph))).order
      = ((sortStep parsed)^[k] (initState parsed graph)).order ++ [m] ∧
    m < parsed.length ∧
    m ∉ ((sortStep parsed)^[k] (initState parsed graph)).order ∧
    graphAt ((sortStep parsed)^[k] (initState parsed graph)).graph m = ∅ ∧
    (∀ x, x < parsed.length →
      x ∉ ((sortStep parsed)^[k] (initState parsed graph)).order →
      graphAt ((sortStep parsed)^[k] (initState parsed graph)).graph x = ∅ →
      readyLe parsed m x) :=
  sortStep_min parsed _ (sortInv_iterate parsed graph k) m rest hs

/-- Witness for claim C7 at the first step of the concrete run: node 0 is
emitted. -/
theorem claim_C7_witness :
    (sortStep exampleParsed ((sortStep exampleParsed)^[0]
      (initState exampleParsed exampleGraph))).order
      = ((sortStep exampleParsed)^[0] (initState exampleParsed exampleGraph)).order ++ [0] :=
  (claim_C7 exampleParsed exampleGraph 0 0 [] (by decide)).1

/-- Claim C8: the classifier is an ordered cascade — a retrieval-like
action on object memory yields LOOKUP regardless of later rules; when rules
1 through 5 all fail, a nonempty condition yields GATE; and when rules 1
through 6 all fail the trigger decides via the fallback map, any other
trigger giving UNKNOWN. -/
theorem claim_C8 (comp : Components) :
    (comp.action ∈ (["retrieve", "search", "load", "get"] : List String) ∧
      comp.object = "memory" → classify_instruction comp = "LOOKUP") ∧
    (¬(comp.action ∈ (["retrieve", "search", "load", "get"] : List String) ∧
        comp.object = "memory") →
     ¬(comp.action = "match" ∨ (comp.action ∈ (["compare", "map"] : List String) ∧
        comp.object ∈ (["domain", "route"] : List String))) →
     comp.action ∉ (["discover", "tool_call"] : List String) →
     comp.action ∉ (["store", "create"] : List String) →
     comp.action ≠ "transform" →
     comp.condition ≠ "" →
      classify_instruction comp = "GATE") ∧
    (¬(comp.action ∈ (["retrieve", "search", "load", "get"] : List String) ∧
        comp.object = "memory") →
     ¬(comp.action = "match" ∨ (comp.action ∈ (["compare", "map"] : List String) ∧
        comp.object ∈ (["domain", "route"] : List String))) →
     comp.action ∉ (["discover", "tool_call"] : List String) →
     comp.action ∉ (["store", "create"] : List String) →
     comp.action ≠ "transform" →
     comp.condition = "" →
      classify_instruction comp =
        (if comp.trigger = "conversation_start" then "LOOKUP"
         else if comp.trigger = "on_miss" then "DISCOVER"
         else if comp.trigger = "on_success" then "STORE"
         else if comp.trigger = "pre_response" then "APPLY"
         else "UNKNOWN")) := by
  refine ⟨?_, ?_, ?_⟩
  · intro h1
    rw [classify_instruction, if_pos h1]
  · intro h1 h2 h3 h4 h5 h6
    rw [classify_instruction, if_neg h1, if_neg h2, if_neg h3, if_neg h4, if_neg h5,
      if_pos h6]
  · intro h1 h2 h3 h4 h5 h6
    rw [classify_instruction, if_neg h1, if_neg h2, if_neg h3, if_neg h4, if_neg h5,
      if_neg (fun hc => hc h6)]

/-- Witness for claim C8: a retrieval action on memory classifies LOOKUP. -/
theorem claim_C8_witness :
    classify_instruction ⟨"every_message", "retrieve", "", "memory"⟩ = "LOOKUP" :=
  (claim_C8 ⟨"every_message", "retrieve", "", "memory"⟩).1 (by decide)

/-- Claim C9, counterexample: a GATE entry whose condition component is
empty renders the header IF followed by nothing, not the claimed default
header IF SOME CONDITION, because the component dictionary always carries
the condition key so the lookup default never applies. -/
theorem claim_C9_counterexample :
    generate_directive gateEntryEmpty
      = "IF :\nProceed with next step. OTHERWISE, skip." ∧
    generate_directive gateEntryEmpty
      ≠ "IF SOME CONDITION:\nProceed with next step. OTHERWISE, skip." := by
  constructor
  · rfl
  · decide

/-- Claim C9, amended: for every GATE entry the rendered directive is the
conditional header built from the uppercased condition label; when the
condition component is empty the header degenerates to IF with an empty
label (the source reads the component with a dictionary default of some
condition, but extract_components always stores the condition key, so that
default is dead). -/
theorem claim_C9 (entry : Entry) (h : entry.type = "GATE") :
    generate_directive entry = "IF " ++ pyUpper entry.components.condition
      ++ ":\nProceed with next step. OTHERWISE, skip." := by
  simp only [generate_directive, h]
  rfl

/-- Witness for the amended claim C9 on a GATE entry with a nonempty
condition label. -/
theorem claim_C9_witness :
    generate_directive gateEntryNeg = "IF " ++ pyUpper "existence_negative"
      ++ ":\nProceed with next step. OTHERWISE, skip." :=
  claim_C9 gateEntryNeg rfl

/-- Claim C10: on any backslash-free fragment the extracted action is
empty — every action pattern demands a literal backslash-b — so classifier
rules 1 through 5 never fire and the type is decided solely by the
condition and trigger components. -/
theorem claim_C10 (t : String) (h : '\\' ∉ t.data) :
    (extract_components t).action = "" ∧
    classify_instruction (extract_components t) =
      (if (extract_components t).condition ≠ "" then "GATE"
       else if (extract_components t).trigger = "conversation_start" then "LOOKUP"
       else if (extract_components t).trigger = "on_miss" then "DISCOVER"
       else if (extract_components t).trigger = "on_success" then "STORE"
       else if (extract_components t).trigger = "pre_response" then "APPLY"
       else "UNKNOWN") := by
  have ha : (extract_components t).action = "" := extract_action_empty t h
  exact ⟨ha, classify_no_action _ ha⟩

/-- Witness for claim C10: a fragment that names a store action in plain
text still gets an empty action component. -/
theorem claim_C10_witness :
    (extract_components "store the result").action = "" :=
  (claim_C10 "store the result" (by decide)).1

end LLMBios
